import Mathlib

/-!
Verification of the field-service scheduler (src/streamlit_app.py).

Strings are modelled as `List Char` (Python `str`); the Python string
operations used by the source (`split` on a one-character separator,
`in` for substring membership, `split(sep)[1]` for a multi-character
separator, `strip`) are embedded as structurally recursive functions so
that every definition evaluates by kernel reduction.
-/

/-- Python `s.split(sep)` for a one-character separator `sep`:
splits at every occurrence, keeping empty pieces, and `"".split(sep) = [""]`.
Used for `response_text.split('\n')` and `.split('|')` in
`parse_reschedule_request`. -/
def splitOnChar (sep : Char) : List Char → List (List Char)
  | [] => [[]]
  | a :: rest =>
    match splitOnChar sep rest with
    | [] => [[a]]
    | r :: rs => if a == sep then [] :: r :: rs else (a :: r) :: rs

/-- Python `sep in s` (substring membership) for a separator word `sep`:
true iff `sep` occurs contiguously in `s` (and always true for empty `sep`
on nonempty scans, matching Python). -/
def containsSeq (sep : List Char) : List Char → Bool
  | [] => sep.isEmpty
  | c :: rest => sep.isPrefixOf (c :: rest) || containsSeq sep rest

/-- The characters of `s` after the first occurrence of the word `sep`;
`none` when `sep` does not occur.  Models the scan Python's `s.split(sep)`
performs to find the first separator occurrence. -/
def afterFirst (sep : List Char) : List Char → Option (List Char)
  | [] => none
  | c :: rest =>
    if sep.isPrefixOf (c :: rest) then some (List.drop (sep.length - 1) rest)
    else afterFirst sep rest

/-- The characters of `s` before the first occurrence of the word `sep`
(all of `s` when `sep` does not occur).  Together with `afterFirst` this
models Python `s.split(sep)[1]`: the piece between the first occurrence of
`sep` and the next non-overlapping occurrence (or the end) is
`beforeFirst sep r` where `afterFirst sep s = some r`. -/
def beforeFirst (sep : List Char) : List Char → List Char
  | [] => []
  | c :: rest =>
    if sep.isPrefixOf (c :: rest) then []
    else c :: beforeFirst sep rest

/-- Remove leading whitespace characters (half of Python `str.strip()`). -/
def lstripL : List Char → List Char
  | [] => []
  | c :: rest => if c.isWhitespace then lstripL rest else c :: rest

/-- Python `s.strip()`: remove leading and trailing whitespace. -/
def strip (s : List Char) : List Char :=
  (lstripL (lstripL s).reverse).reverse

/-- The literal directive marker `'RESCHEDULE_REQUEST:'` of
`parse_reschedule_request`. -/
def markerL : List Char := "RESCHEDULE_REQUEST:".toList

/-- Core of `parse_reschedule_request` (src/streamlit_app.py:164-181) on
character lists.  Mirrors the Python line by line:
`if "RESCHEDULE_REQUEST:" in response_text:` is the outer guard; the
candidate list is `[line for line in response_text.split('\n') if
'RESCHEDULE_REQUEST:' in line]` and its `[0]` indexing is the first match
(the `[] => none` branch is the `IndexError` swallowed by the bare
`except`); `request_line.split('RESCHEDULE_REQUEST:')[1]` is
`beforeFirst markerL` of `afterFirst markerL request_line` (the
`none => none` branch is that indexing's `IndexError`); then
`.strip().split('|')`, the `len(parts) == 2` check, and the per-field
`.strip()`.  All failures fall through to `return None, None`. -/
def parseRR (response_text : List Char) : Option (List Char × List Char) :=
  if containsSeq markerL response_text = true then
    match (splitOnChar '\n' response_text).filter (fun line => containsSeq markerL line) with
    | [] => none
    | request_line :: _ =>
      match afterFirst markerL request_line with
      | none => none
      | some rem0 =>
        match splitOnChar '|' (strip (beforeFirst markerL rem0)) with
        | [p0, p1] => some (strip p0, strip p1)
        | _ => none
  else none

/-- `parse_reschedule_request` (src/streamlit_app.py:164-181) at `String`
level: `some (new_date, new_time)` models `return new_date, new_time`,
`none` models `return None, None`. -/
def parse_reschedule_request (response_text : String) : Option (String × String) :=
  match parseRR response_text.toList with
  | some (d, t) => some (String.mk d, String.mk t)
  | none => none

/-- The extraction `parse_reschedule_request` performs on a single
candidate line (everything after the `[0]` indexing), used to state that
the parser's result is determined by the first candidate line alone. -/
def lineResult (request_line : List Char) : Option (String × String) :=
  match afterFirst markerL request_line with
  | none => none
  | some rem0 =>
    match splitOnChar '|' (strip (beforeFirst markerL rem0)) with
    | [p0, p1] => some (String.mk (strip p0), String.mk (strip p1))
    | _ => none

/-- One row of the appointment sheet, with the columns of `COLUMNS`
(src/streamlit_app.py:45-55). -/
structure Row where
  work_order : String
  customer_name : String
  customer_email : String
  address : String
  postal_code : String
  appointment_date : String
  appointment_time : String
  status : String
  tech_id : String
deriving DecidableEq, Repr

/-- `update_appointment` (src/streamlit_app.py:83-112) on an explicit
table.  `mask = df[Work_Order] == work_order`; when `mask.any()` fails the
function shows an error and returns `False` without touching the sheet
(modelled by `none`); otherwise `df.loc[mask, ...]` assigns the three
fields on every matching row and `conn.update(data=df)` writes the new
table back (modelled by `some` of the written table). -/
def update_appointment (df : List Row) (work_order new_date new_time : String)
    (new_status : String := "Rescheduled") : Option (List Row) :=
  if df.any (fun r => r.work_order == work_order) then
    some (df.map (fun r =>
      if r.work_order == work_order then
        { r with appointment_date := new_date, appointment_time := new_time,
                 status := new_status }
      else r))
  else none

/-- Outcome of the remote Gemini call inside `chat_with_gemini`:
either the response text, or the exception `e` caught by its
`try/except`. -/
inductive ChatOutcome where
  | ok (text : String)
  | err (emsg : String)
deriving DecidableEq

/-- `chat_with_gemini` (src/streamlit_app.py:151-162): returns the model's
response text, or on any exception the synthesized string
`f"Model Error: {e}. Try checking your API key permissions in Google AI Studio."`. -/
def chat_with_gemini (outcome : ChatOutcome) : String :=
  match outcome with
  | .ok text => text
  | .err e => "Model Error: " ++ e ++ ". Try checking your API key permissions in Google AI Studio."

/-- Chat role of one history entry (`message['role']`). -/
inductive Role where
  | user
  | assistant
deriving DecidableEq

/-- One entry of `st.session_state.chat_history`. -/
structure Msg where
  role : Role
  content : String
deriving DecidableEq

/-- One invocation of `update_appointment` recorded with its arguments,
to observe which store writes a turn issues. -/
structure StoreCall where
  work_order : String
  new_date : String
  new_time : String
  new_status : String
deriving DecidableEq

/-- Result of one chat turn of `customer_view`: the chat history and
pending directive afterwards, the assistant text displayed, the store
calls issued, and `commit = some b` when the confirm branch ran with
outcome `b` (`none` when no confirm happened). -/
structure TurnOut where
  history : List Msg
  pending : Option (String × String)
  assistantText : String
  storeCalls : List StoreCall
  commit : Option Bool
deriving DecidableEq

/-- The chat-turn block of `customer_view` (src/streamlit_app.py:324-373):
append the user prompt to the history, call `chat_with_gemini`, append the
response as the assistant turn, run `parse_reschedule_request` on it, and
— when a directive with truthy (nonempty) fields was found and the
`Confirm Reschedule` button was clicked — call
`update_appointment(work_order, new_date, new_time)` (status defaults to
`"Rescheduled"`), clearing the chat history on success and leaving the
session untouched on failure.  The pending directive of §3 of the spec is
the parsed `(new_date, new_time)` pair guarding the confirm button;
`confirmClicked` and `storeOk` are the button state and the boolean
returned by `update_appointment`. -/
def customer_view_turn (hist : List Msg) (work_order prompt : String)
    (outcome : ChatOutcome) (confirmClicked storeOk : Bool) : TurnOut :=
  let hist1 := hist ++ [⟨Role.user, prompt⟩]
  let response := chat_with_gemini outcome
  let hist2 := hist1 ++ [⟨Role.assistant, response⟩]
  match parse_reschedule_request response with
  | some (new_date, new_time) =>
    if new_date.isEmpty || new_time.isEmpty then
      ⟨hist2, none, response, [], none⟩
    else if confirmClicked then
      if storeOk then
        ⟨[], none, response, [⟨work_order, new_date, new_time, "Rescheduled"⟩], some true⟩
      else
        ⟨hist2, some (new_date, new_time), response,
          [⟨work_order, new_date, new_time, "Rescheduled"⟩], some false⟩
    else
      ⟨hist2, some (new_date, new_time), response, [], none⟩
  | none => ⟨hist2, none, response, [], none⟩

/-- Case-insensitive character comparison: Python `re.IGNORECASE`
restricted to ASCII case folding. -/
def lowerEq (a b : Char) : Bool := a.toLower == b.toLower

/-- Python `re.search` match attempt at the start of `s`, for the pattern
fragment actually exercised here: a pattern of literal characters and the
metacharacter `'.'` (which matches any single character), compared
case-insensitively.  Patterns containing other regex metacharacters are
outside this model and are excluded by hypothesis wherever it is used. -/
def reMatchAt : List Char → List Char → Bool
  | [], _ => true
  | _ :: _, [] => false
  | p :: ps, c :: cs => (p == '.' || lowerEq p c) && reMatchAt ps cs

/-- Python `re.search(pat, s, re.IGNORECASE) is not None` for the pattern
fragment of `reMatchAt`: tries a match at every start position.  This is
what `pandas.Series.str.contains(search, case=False, na=False)` computes
per cell, since its default is `regex=True`. -/
def reSearch (pat : List Char) : List Char → Bool
  | [] => reMatchAt pat []
  | c :: rest => reMatchAt pat (c :: rest) || reSearch pat rest

/-- Case-insensitive prefix test (ASCII folding). -/
def ciPrefix : List Char → List Char → Bool
  | [], _ => true
  | _ :: _, [] => false
  | p :: ps, c :: cs => lowerEq p c && ciPrefix ps cs

/-- Case-insensitive substring containment (ASCII folding): the predicate
the spec asserts for the dashboard search.  Differs from `reSearch`
exactly on patterns containing regex metacharacters. -/
def containsCI (q : List Char) : List Char → Bool
  | [] => q.isEmpty
  | c :: rest => ciPrefix q (c :: rest) || containsCI q rest

/-- The search predicate of the technician dashboard
(src/streamlit_app.py:478-482): `str.contains(search, case=False,
na=False)` on `Work_Order`, or-ed with the same on `Customer_Name`. -/
def rowMatchesSearch (search : String) (r : Row) : Bool :=
  reSearch search.toList r.work_order.toList || reSearch search.toList r.customer_name.toList

/-- The dashboard filter of `technician_view`
(src/streamlit_app.py:473-482): keep the rows whose `Status` is in
`status_filter` and whose `Tech_ID` is in `tech_filter`, then — when the
search box is nonempty (Python truthiness of `if search:`) — keep the rows
whose work order or customer name matches the search. -/
def technician_view_filter (df : List Row) (status_filter tech_filter : List String)
    (search : String) : List Row :=
  let filtered_df := df.filter (fun r =>
    status_filter.contains r.status && tech_filter.contains r.tech_id)
  if search.isEmpty then filtered_df
  else filtered_df.filter (rowMatchesSearch search)

/-- The dashboard filter as the spec states it (§4.2): status and
technician membership, and an optional case-insensitive **substring**
search.  Stated from the spec's words, to be compared with
`technician_view_filter`. -/
def spec_dashboard_filter (df : List Row) (statuses techs : List String)
    (search : String) : List Row :=
  df.filter (fun r =>
    statuses.contains r.status && techs.contains r.tech_id &&
      (search.isEmpty || containsCI search.toList r.work_order.toList ||
        containsCI search.toList r.customer_name.toList))

/-- The regex metacharacters of Python `re`; search strings free of these
are matched literally by `re.search`. -/
def regexMeta : List Char := ".^$*+?\x7b\x7d[]()|\\".toList

/-- Sample row used by concrete witnesses. -/
def rowA : Row :=
  ⟨"WO-001", "Alice Baker", "alice@example.com", "1 Main St", "11111",
    "2026-01-05", "9:00 AM", "Pending", "T1"⟩

/-- Second sample row used by concrete witnesses. -/
def rowB : Row :=
  ⟨"WO-002", "Bob Chen", "bob@example.com", "2 Oak Ave", "22222",
    "2026-01-06", "1:00 PM", "Confirmed", "T2"⟩

/-- Sample row whose work order is matched by the regex `a.c` but does not
contain it as a substring. -/
def rowAbc : Row :=
  ⟨"abc", "Carol Diaz", "carol@example.com", "3 Elm Rd", "33333",
    "2026-01-07", "2:00 PM", "Pending", "T1"⟩
/-! ### Helper lemmas about the embedded string operations -/

theorem isPrefixOf_eq (p : List Char) : ∀ s, p.isPrefixOf s = true ↔ ∃ t, p ++ t = s := by
  induction p with
  | nil =>
    intro s
    simp [List.isPrefixOf]
  | cons a p' ih =>
    intro s
    cases s with
    | nil => simp [List.isPrefixOf]
    | cons c s' =>
      simp only [List.isPrefixOf, Bool.and_eq_true, beq_iff_eq, ih s', List.cons_append,
        List.cons.injEq]
      constructor
      · rintro ⟨rfl, t, rfl⟩
        exact ⟨t, rfl, rfl⟩
      · rintro ⟨t, rfl, rfl⟩
        exact ⟨rfl, t, rfl⟩

theorem containsSeq_iff (sep : List Char) : ∀ s, containsSeq sep s = true ↔ ∃ u v, u ++ sep ++ v = s := by
  intro s
  induction s with
  | nil =>
    simp [containsSeq, List.isEmpty_iff, List.append_eq_nil]
  | cons c s' ih =>
    simp only [containsSeq, Bool.or_eq_true, isPrefixOf_eq, ih]
    constructor
    · rintro (⟨t, ht⟩ | ⟨u, v, huv⟩)
      · exact ⟨[], t, ht⟩
      · exact ⟨c :: u, v, by simp only [List.cons_append]; rw [huv]⟩
    · rintro ⟨u, v, huv⟩
      cases u with
      | nil =>
        left
        exact ⟨v, huv⟩
      | cons a u' =>
        right
        simp only [List.cons_append] at huv
        injection huv with h1 h2
        exact ⟨u', v, h2⟩

theorem splitOnChar_ne_nil (sep : Char) (s : List Char) : splitOnChar sep s ≠ [] := by
  cases s with
  | nil => simp [splitOnChar]
  | cons a rest =>
    simp only [splitOnChar]
    split
    · simp
    · split <;> simp

theorem splitOnChar_head (sep : Char) :
    ∀ (s h : List Char) (tl : List (List Char)),
      splitOnChar sep s = h :: tl → ∃ w, h ++ w = s := by
  intro s
  induction s with
  | nil =>
    intro h tl he
    simp only [splitOnChar, List.cons.injEq] at he
    exact ⟨[], by simp [← he.1]⟩
  | cons a rest ih =>
    intro h tl he
    cases hr : splitOnChar sep rest with
    | nil => exact absurd hr (splitOnChar_ne_nil sep rest)
    | cons r rs =>
      simp only [splitOnChar, hr] at he
      by_cases hc : a == sep
      · simp only [hc, if_true] at he
        injection he with h1 h2
        exact ⟨a :: rest, by simp [← h1]⟩
      · simp only [hc, if_false] at he
        injection he with h1 h2
        obtain ⟨w, hw⟩ := ih r rs hr
        exact ⟨w, by simp [← h1, List.cons_append, hw]⟩

theorem mem_splitOnChar_infix (sep : Char) :
    ∀ (s : List Char), ∀ l ∈ splitOnChar sep s, ∃ u v, u ++ l ++ v = s := by
  intro s
  induction s with
  | nil =>
    intro l hl
    simp only [splitOnChar, List.mem_singleton] at hl
    exact ⟨[], [], by simp [hl]⟩
  | cons a rest ih =>
    intro l hl
    cases hr : splitOnChar sep rest with
    | nil => exact absurd hr (splitOnChar_ne_nil sep rest)
    | cons r rs =>
      simp only [splitOnChar, hr] at hl
      by_cases hc : a == sep
      · simp [hc] at hl
        rcases hl with rfl | hl
        · exact ⟨[], a :: rest, rfl⟩
        · obtain ⟨u, v, huv⟩ := ih l (by
            rw [hr]
            rcases hl with rfl | hl
            · exact List.mem_cons_self _ _
            · exact List.mem_cons_of_mem _ hl)
          exact ⟨a :: u, v, by simp only [List.cons_append]; rw [huv]⟩
      · simp [hc] at hl
        rcases hl with rfl | hl
        · obtain ⟨w, hw⟩ := splitOnChar_head sep rest r rs hr
          exact ⟨[], w, by simp only [List.nil_append, List.cons_append]; rw [hw]⟩
        · obtain ⟨u, v, huv⟩ := ih l (by rw [hr]; exact List.mem_cons_of_mem _ hl)
          exact ⟨a :: u, v, by simp only [List.cons_append]; rw [huv]⟩

theorem prefix_splitOnChar_head (sep : Char) :
    ∀ (m : List Char), sep ∉ m → ∀ (s h : List Char) (tl : List (List Char)),
      (∃ t, m ++ t = s) → splitOnChar sep s = h :: tl → ∃ t', m ++ t' = h := by
  intro m
  induction m with
  | nil =>
    intro _ s h tl _ _
    exact ⟨h, rfl⟩
  | cons a m' ih =>
    intro hm s h tl hpre hsp
    simp only [List.mem_cons, not_or] at hm
    obtain ⟨t, ht⟩ := hpre
    subst ht
    have hane : (a == sep) = false := beq_eq_false_iff_ne.mpr (fun he => hm.1 he.symm)
    simp only [List.cons_append] at hsp
    cases hr : splitOnChar sep (m' ++ t) with
    | nil => exact absurd hr (splitOnChar_ne_nil _ _)
    | cons r rs =>
      simp [splitOnChar, hr, hane] at hsp
      obtain ⟨t', ht'⟩ := ih hm.2 (m' ++ t) r rs ⟨t, rfl⟩ hr
      exact ⟨t', by rw [List.cons_append, ht', hsp.1]⟩

theorem containsSeq_mem_splitOnChar (sep : Char) (m : List Char) (hm : sep ∉ m) :
    ∀ s, containsSeq m s = true → ∃ l ∈ splitOnChar sep s, containsSeq m l = true := by
  intro s
  induction s with
  | nil =>
    intro h
    have hm0 : m = [] := by simpa [containsSeq, List.isEmpty_iff] using h
    subst hm0
    exact ⟨[], by simp [splitOnChar], rfl⟩
  | cons a rest ih =>
    intro h
    simp only [containsSeq, Bool.or_eq_true] at h
    rcases h with hpre | hrest
    · cases hsp : splitOnChar sep (a :: rest) with
      | nil => exact absurd hsp (splitOnChar_ne_nil _ _)
      | cons h0 tl =>
        obtain ⟨t, ht⟩ := (isPrefixOf_eq m _).mp hpre
        obtain ⟨t', ht'⟩ := prefix_splitOnChar_head sep m hm (a :: rest) h0 tl ⟨t, ht⟩ hsp
        refine ⟨h0, List.mem_cons_self _ _, ?_⟩
        exact (containsSeq_iff m h0).mpr ⟨[], t', ht'⟩
    · obtain ⟨l, hl, hcl⟩ := ih hrest
      cases hr : splitOnChar sep rest with
      | nil => exact absurd hr (splitOnChar_ne_nil _ _)
      | cons r rs =>
        rw [hr] at hl
        by_cases hc : a == sep
        · have hsp : splitOnChar sep (a :: rest) = [] :: r :: rs := by
            simp [splitOnChar, hr, hc]
          exact ⟨l, by rw [hsp]; exact List.mem_cons_of_mem _ hl, hcl⟩
        · have hsp : splitOnChar sep (a :: rest) = (a :: r) :: rs := by
            simp [splitOnChar, hr, hc]
          rcases List.mem_cons.mp hl with rfl | h1
          · refine ⟨a :: l, by rw [hsp]; exact List.mem_cons_self _ _, ?_⟩
            simp [containsSeq, hcl]
          · exact ⟨l, by rw [hsp]; exact List.mem_cons_of_mem _ h1, hcl⟩

theorem afterFirst_isSome_of_contains :
    ∀ s, containsSeq markerL s = true → ∃ r, afterFirst markerL s = some r := by
  intro s
  induction s with
  | nil =>
    intro h
    exact absurd h (by decide)
  | cons c rest ih =>
    intro h
    by_cases hp : markerL.isPrefixOf (c :: rest)
    · exact ⟨List.drop (markerL.length - 1) rest, by simp [afterFirst, hp]⟩
    · have h' : containsSeq markerL rest = true := by
        simp only [containsSeq, Bool.or_eq_true] at h
        rcases h with h | h
        · exact absurd h hp
        · exact h
      obtain ⟨r, hrr⟩ := ih h'
      exact ⟨r, by simp [afterFirst, hp, hrr]⟩

theorem contains_of_afterFirst_some (sep : List Char) :
    ∀ (s r : List Char), afterFirst sep s = some r → containsSeq sep s = true := by
  intro s
  induction s with
  | nil =>
    intro r h
    simp [afterFirst] at h
  | cons c rest ih =>
    intro r h
    by_cases hp : sep.isPrefixOf (c :: rest)
    · simp [containsSeq, hp]
    · simp only [afterFirst] at h
      rw [if_neg hp] at h
      simp [containsSeq, ih r h]

theorem beforeFirst_of_not_contains (sep : List Char) :
    ∀ s, containsSeq sep s = false → beforeFirst sep s = s := by
  intro s
  induction s with
  | nil => intro _; rfl
  | cons c rest ih =>
    intro h
    have h1 : sep.isPrefixOf (c :: rest) = false := by
      cases hp : sep.isPrefixOf (c :: rest) <;> simp_all [containsSeq]
    have h2 : containsSeq sep rest = false := by
      cases hp : containsSeq sep rest <;> simp_all [containsSeq]
    simp [beforeFirst, h1, ih h2]

theorem filter_eq_nil_of_false {α : Type} (p : α → Bool) :
    ∀ l : List α, (∀ a ∈ l, p a = false) → l.filter p = [] := by
  intro l
  induction l with
  | nil => intro _; rfl
  | cons a rest ih =>
    intro h
    have ha := h a (List.mem_cons_self a rest)
    have hrest := ih (fun b hb => h b (List.mem_cons_of_mem _ hb))
    simp [List.filter_cons, ha, hrest]

theorem containsSeq_of_mem_line (m : List Char) (sep : Char) (s l : List Char)
    (hl : l ∈ splitOnChar sep s) (hc : containsSeq m l = true) :
    containsSeq m s = true := by
  obtain ⟨x, y, hxy⟩ := (containsSeq_iff m l).mp hc
  obtain ⟨u, v, huv⟩ := mem_splitOnChar_infix sep s l hl
  subst hxy
  subst huv
  exact (containsSeq_iff m _).mpr ⟨u ++ x, y ++ v, by simp [List.append_assoc]⟩

theorem parseRR_first_candidate (text : List Char) (pre : List (List Char)) (line : List Char)
    (post : List (List Char))
    (hlines : splitOnChar '\n' text = pre ++ line :: post)
    (hpre : ∀ l ∈ pre, containsSeq markerL l = false)
    (hcand : containsSeq markerL line = true) :
    parseRR text =
      match afterFirst markerL line with
      | none => none
      | some rem0 =>
        match splitOnChar '|' (strip (beforeFirst markerL rem0)) with
        | [p0, p1] => some (strip p0, strip p1)
        | _ => none := by
  have hmem : line ∈ splitOnChar '\n' text := by
    rw [hlines]
    exact List.mem_append_right _ (List.mem_cons_self _ _)
  have hguard : containsSeq markerL text = true :=
    containsSeq_of_mem_line markerL '\n' text line hmem hcand
  have hfilter : (splitOnChar '\n' text).filter (fun l => containsSeq markerL l) =
      line :: post.filter (fun l => containsSeq markerL l) := by
    rw [hlines, List.filter_append, filter_eq_nil_of_false _ pre hpre]
    simp [List.filter_cons, hcand]
  simp only [parseRR]
  rw [if_pos hguard, hfilter]

theorem parse_first_candidate (reply : String) (pre : List (List Char)) (line : List Char)
    (post : List (List Char))
    (hlines : splitOnChar '\n' reply.toList = pre ++ line :: post)
    (hpre : ∀ l ∈ pre, containsSeq markerL l = false)
    (hcand : containsSeq markerL line = true) :
    parse_reschedule_request reply = lineResult line := by
  rw [parse_reschedule_request,
    parseRR_first_candidate reply.toList pre line post hlines hpre hcand]
  cases ha : afterFirst markerL line with
  | none => simp [lineResult, ha]
  | some rem0 =>
    cases hs : splitOnChar '|' (strip (beforeFirst markerL rem0)) with
    | nil => simp [lineResult, ha, hs]
    | cons p0 ps =>
      cases ps with
      | nil => simp [lineResult, ha, hs]
      | cons p1 ps' =>
        cases ps' with
        | nil => simp [lineResult, ha, hs]
        | cons p2 ps'' => simp [lineResult, ha, hs]

/-! ### Claim theorems -/

/-- Claim C1: a reply containing exactly one line of the shape
`RESCHEDULE_REQUEST: D | T` — the marker, occurring once in that line and
in no other line, followed by a remainder whose stripped form splits into
exactly two `|`-delimited fields — parses to the pair of fields with
surrounding whitespace trimmed; the fields are arbitrary strings, so no
date or time grammar is validated. -/
theorem parse_single_directive_line (reply : String) (pre post : List (List Char))
    (line rem d t : List Char)
    (hlines : splitOnChar '\n' reply.toList = pre ++ line :: post)
    (hpre : ∀ l ∈ pre, containsSeq markerL l = false)
    (hpost : ∀ l ∈ post, containsSeq markerL l = false)
    (hline : afterFirst markerL line = some rem)
    (honce : containsSeq markerL rem = false)
    (hparts : splitOnChar '|' (strip rem) = [d, t]) :
    parse_reschedule_request reply = some (String.mk (strip d), String.mk (strip t)) := by
  have hcand : containsSeq markerL line = true :=
    contains_of_afterFirst_some markerL line rem hline
  rw [parse_first_candidate reply pre line post hlines hpre hcand]
  simp [lineResult, hline, beforeFirst_of_not_contains markerL rem honce, hparts]

/-- Witness for `parse_single_directive_line` at the spec's example
reply. -/
theorem parse_single_directive_line_witness :
    parse_reschedule_request "Sure! \nRESCHEDULE_REQUEST: 2026-02-20 | 3:00 PM\nSee you then."
      = some ("2026-02-20", "3:00 PM") := by
  have h := parse_single_directive_line
    "Sure! \nRESCHEDULE_REQUEST: 2026-02-20 | 3:00 PM\nSee you then."
    ["Sure! ".toList] ["See you then.".toList]
    "RESCHEDULE_REQUEST: 2026-02-20 | 3:00 PM".toList
    " 2026-02-20 | 3:00 PM".toList
    "2026-02-20 ".toList " 3:00 PM".toList
    (by decide) (by decide) (by decide) (by decide) (by decide) (by decide)
  exact h.trans (by decide)

/-- Claim C2: a reply with no marker line parses to `none`, and so does a
reply whose first marker line's remainder does not split into exactly two
`|`-delimited fields; no pair is extracted even partially, and `none` is
the ordinary `return None, None`, not an error. -/
theorem parse_no_directive (reply : String) :
    ((∀ l ∈ splitOnChar '\n' reply.toList, containsSeq markerL l = false) →
      parse_reschedule_request reply = none) ∧
    (∀ (pre : List (List Char)) (line : List Char) (post : List (List Char)) (rem : List Char),
      splitOnChar '\n' reply.toList = pre ++ line :: post →
      (∀ l ∈ pre, containsSeq markerL l = false) →
      afterFirst markerL line = some rem →
      containsSeq markerL rem = false →
      (splitOnChar '|' (strip rem)).length ≠ 2 →
      parse_reschedule_request reply = none) := by
  constructor
  · intro hall
    have hguard : containsSeq markerL reply.toList = false := by
      cases hg : containsSeq markerL reply.toList with
      | false => rfl
      | true =>
        obtain ⟨l, hl, hcl⟩ :=
          containsSeq_mem_splitOnChar '\n' markerL (by decide) reply.toList hg
        rw [hall l hl] at hcl
        exact absurd hcl (by decide)
    have hnone : parseRR reply.toList = none := by
      simp only [parseRR]
      rw [if_neg]
      simp only [Bool.not_eq_true]
      exact hguard
    simp only [parse_reschedule_request, hnone]
  · intro pre line post rem hlines hpre hline honce hlen
    have hcand : containsSeq markerL line = true :=
      contains_of_afterFirst_some markerL line rem hline
    rw [parse_first_candidate reply pre line post hlines hpre hcand]
    simp only [lineResult, hline, beforeFirst_of_not_contains markerL rem honce]
    cases hs : splitOnChar '|' (strip rem) with
    | nil => rfl
    | cons p0 ps =>
      cases ps with
      | nil => rfl
      | cons p1 ps' =>
        cases ps' with
        | nil => simp [hs] at hlen
        | cons p2 ps'' => rfl

/-- Witness for `parse_no_directive`: a marker-free reply, and a reply
whose directive line has three `|`-fields. -/
theorem parse_no_directive_witness :
    parse_reschedule_request "What day works for you?" = none ∧
    parse_reschedule_request "RESCHEDULE_REQUEST: 2026-02-20 | 3:00 PM | extra" = none := by
  constructor
  · exact (parse_no_directive "What day works for you?").1 (by decide)
  · exact (parse_no_directive "RESCHEDULE_REQUEST: 2026-02-20 | 3:00 PM | extra").2
      [] "RESCHEDULE_REQUEST: 2026-02-20 | 3:00 PM | extra".toList []
      " 2026-02-20 | 3:00 PM | extra".toList
      (by decide) (by decide) (by decide) (by decide) (by decide)

/-- Claim C3: when a reply contains two or more marker lines, the parser's
result is the extraction from the first candidate line alone; all later
candidate lines are ignored. -/
theorem parse_first_of_many (reply : String) (pre : List (List Char)) (line : List Char)
    (post : List (List Char))
    (hlines : splitOnChar '\n' reply.toList = pre ++ line :: post)
    (hpre : ∀ l ∈ pre, containsSeq markerL l = false)
    (hcand : containsSeq markerL line = true)
    (hsecond : ∃ l ∈ post, containsSeq markerL l = true) :
    parse_reschedule_request reply = lineResult line :=
  parse_first_candidate reply pre line post hlines hpre hcand

/-- Witness for `parse_first_of_many`: two directive lines with different
dates yield the first line's date. -/
theorem parse_first_of_many_witness :
    parse_reschedule_request
        "RESCHEDULE_REQUEST: 2026-02-20 | 3:00 PM\nRESCHEDULE_REQUEST: 2026-02-21 | 4:00 PM"
      = some ("2026-02-20", "3:00 PM") := by
  have h := parse_first_of_many
    "RESCHEDULE_REQUEST: 2026-02-20 | 3:00 PM\nRESCHEDULE_REQUEST: 2026-02-21 | 4:00 PM"
    [] "RESCHEDULE_REQUEST: 2026-02-20 | 3:00 PM".toList
    ["RESCHEDULE_REQUEST: 2026-02-21 | 4:00 PM".toList]
    (by decide) (by decide) (by decide)
    ⟨"RESCHEDULE_REQUEST: 2026-02-21 | 4:00 PM".toList, by decide, by decide⟩
  exact h.trans (by decide)

/-- Claim C10: the parser is total — it returns a pair or `none`, and when
the outer guard holds (the marker occurs in the reply) the candidate-line
list is nonempty, because the marker contains no newline and therefore
lies within a single line; moreover every candidate line contains the
marker, so the `split(marker)[1]` indexing also succeeds: the `except`
branch is unreachable from these indexings. -/
theorem parser_total_guard (reply : String)
    (h : containsSeq markerL reply.toList = true) :
    (splitOnChar '\n' reply.toList).filter (fun l => containsSeq markerL l) ≠ [] ∧
    ∀ l ∈ (splitOnChar '\n' reply.toList).filter (fun l => containsSeq markerL l),
      afterFirst markerL l ≠ none := by
  constructor
  · obtain ⟨l, hl, hcl⟩ :=
      containsSeq_mem_splitOnChar '\n' markerL (by decide) reply.toList h
    exact List.ne_nil_of_mem (List.mem_filter.mpr ⟨hl, hcl⟩)
  · intro l hl
    have hcl : containsSeq markerL l = true := (List.mem_filter.mp hl).2
    obtain ⟨r, hrr⟩ := afterFirst_isSome_of_contains l hcl
    simp [hrr]

/-- Witness for `parser_total_guard` at a concrete guarded reply. -/
theorem parser_total_guard_witness :
    (splitOnChar '\n' ("a\nRESCHEDULE_REQUEST: x".toList)).filter
        (fun l => containsSeq markerL l) ≠ [] ∧
    ∀ l ∈ (splitOnChar '\n' ("a\nRESCHEDULE_REQUEST: x".toList)).filter
        (fun l => containsSeq markerL l),
      afterFirst markerL l ≠ none :=
  parser_total_guard "a\nRESCHEDULE_REQUEST: x" (by decide)

/-- Counterexample to claim C4 as stated: the code runs the directive
parser over the synthesized error string, so a failing call whose
exception text contains a directive line sets the pending directive. -/
theorem turn_assistant_failure_counterexample :
    (customer_view_turn [] "WO-001" "hi"
        (ChatOutcome.err "boom\nRESCHEDULE_REQUEST: 2026-02-20 | 3:00 PM\n") false false).pending
      = some ("2026-02-20", "3:00 PM") := by decide

/-- Claim C4 (amended): when the Chat Assistant call fails, the turn
surfaces the synthesized error message as the assistant turn (so the
conversation can continue) and the user's turn remains appended to the
history; provided the synthesized error message does not itself contain
the directive marker, the pending directive remains unset and no store
call occurs. -/
theorem turn_assistant_failure (hist : List Msg) (work_order prompt emsg : String)
    (confirmClicked storeOk : Bool)
    (hm : containsSeq markerL (chat_with_gemini (ChatOutcome.err emsg)).toList = false) :
    customer_view_turn hist work_order prompt (ChatOutcome.err emsg) confirmClicked storeOk =
      ⟨hist ++ [⟨Role.user, prompt⟩, ⟨Role.assistant, chat_with_gemini (ChatOutcome.err emsg)⟩],
        none, chat_with_gemini (ChatOutcome.err emsg), [], none⟩ := by
  have hnone : parseRR (chat_with_gemini (ChatOutcome.err emsg)).toList = none := by
    simp only [parseRR]
    rw [if_neg]
    simp only [Bool.not_eq_true]
    exact hm
  have hparse : parse_reschedule_request (chat_with_gemini (ChatOutcome.err emsg)) = none := by
    simp only [parse_reschedule_request, hnone]
  simp [customer_view_turn, hparse, List.append_assoc]

/-- Witness for `turn_assistant_failure` at a concrete failing call. -/
theorem turn_assistant_failure_witness :
    customer_view_turn [] "WO-001" "hello" (ChatOutcome.err "connection refused") false false =
      ⟨[⟨Role.user, "hello"⟩,
        ⟨Role.assistant, chat_with_gemini (ChatOutcome.err "connection refused")⟩],
        none, chat_with_gemini (ChatOutcome.err "connection refused"), [], none⟩ :=
  turn_assistant_failure [] "WO-001" "hello" "connection refused" false false (by decide)

/-- Claim C5: with a pending directive `(d, t)` — parsed from the latest
assistant reply, both fields nonempty — a successful confirm calls the
store update with the session's work order, `d`, `t` and status
`"Rescheduled"`, and afterwards the history is empty and the pending
directive is unset. -/
theorem confirm_success (hist : List Msg) (work_order prompt resp d t : String)
    (hp : parse_reschedule_request resp = some (d, t))
    (hd : d.isEmpty = false) (ht : t.isEmpty = false) :
    customer_view_turn hist work_order prompt (ChatOutcome.ok resp) true true =
      ⟨[], none, resp, [⟨work_order, d, t, "Rescheduled"⟩], some true⟩ := by
  simp [customer_view_turn, chat_with_gemini, hp, hd, ht]

/-- Witness for `confirm_success` at a concrete directive reply. -/
theorem confirm_success_witness :
    customer_view_turn [] "WO-001" "yes please"
        (ChatOutcome.ok "RESCHEDULE_REQUEST: 2026-02-20 | 3:00 PM") true true =
      ⟨[], none, "RESCHEDULE_REQUEST: 2026-02-20 | 3:00 PM",
        [⟨"WO-001", "2026-02-20", "3:00 PM", "Rescheduled"⟩], some true⟩ :=
  confirm_success [] "WO-001" "yes please" "RESCHEDULE_REQUEST: 2026-02-20 | 3:00 PM"
    "2026-02-20" "3:00 PM" (by decide) (by decide) (by decide)

/-- Claim C6: with a pending directive `(d, t)`, a confirm whose store
update fails reports the failure and leaves the session exactly as it was
before the confirm — the history still ends with the user and assistant
turns and the pending directive is still `(d, t)` — so the user can
retry. -/
theorem confirm_store_failure (hist : List Msg) (work_order prompt resp d t : String)
    (hp : parse_reschedule_request resp = some (d, t))
    (hd : d.isEmpty = false) (ht : t.isEmpty = false) :
    customer_view_turn hist work_order prompt (ChatOutcome.ok resp) true false =
      ⟨hist ++ [⟨Role.user, prompt⟩, ⟨Role.assistant, resp⟩], some (d, t), resp,
        [⟨work_order, d, t, "Rescheduled"⟩], some false⟩ := by
  simp [customer_view_turn, chat_with_gemini, hp, hd, ht, List.append_assoc]

/-- Witness for `confirm_store_failure` at a concrete directive reply. -/
theorem confirm_store_failure_witness :
    customer_view_turn [] "WO-001" "yes please"
        (ChatOutcome.ok "RESCHEDULE_REQUEST: 2026-02-20 | 3:00 PM") true false =
      ⟨[⟨Role.user, "yes please"⟩,
        ⟨Role.assistant, "RESCHEDULE_REQUEST: 2026-02-20 | 3:00 PM"⟩],
        some ("2026-02-20", "3:00 PM"), "RESCHEDULE_REQUEST: 2026-02-20 | 3:00 PM",
        [⟨"WO-001", "2026-02-20", "3:00 PM", "Rescheduled"⟩], some false⟩ :=
  confirm_store_failure [] "WO-001" "yes please" "RESCHEDULE_REQUEST: 2026-02-20 | 3:00 PM"
    "2026-02-20" "3:00 PM" (by decide) (by decide) (by decide)

/-- Claim C7: `update_appointment` on a work order matching no row of the
table returns the not-found failure (`none`): no write is issued, so the
sheet keeps its row count and every row unchanged. -/
theorem update_appointment_not_found (df : List Row) (wo d t s : String)
    (h : ∀ r ∈ df, r.work_order ≠ wo) :
    update_appointment df wo d t s = none := by
  have hany : ¬ df.any (fun r => r.work_order == wo) = true := by
    rw [List.any_eq_true]
    rintro ⟨r, hr, hbeq⟩
    exact h r hr (by simpa using hbeq)
  unfold update_appointment
  rw [if_neg hany]

/-- Witness for `update_appointment_not_found` at a concrete table. -/
theorem update_appointment_not_found_witness :
    update_appointment [rowA, rowB] "WO-999" "2026-02-20" "3:00 PM" "Rescheduled" = none :=
  update_appointment_not_found [rowA, rowB] "WO-999" "2026-02-20" "3:00 PM" "Rescheduled"
    (by decide)

/-- Claim C8: `update_appointment` on a present work order writes a table
of the same length in which every row keeps its work-order key, each row
matching the key changes exactly its appointment date, appointment time
and status fields, and every other row is unchanged. -/
theorem update_appointment_frame (df : List Row) (wo d t s : String)
    (h : ∃ r ∈ df, r.work_order = wo) :
    ∃ df', update_appointment df wo d t s = some df' ∧
      df'.length = df.length ∧
      ∀ (i : Nat) (hi : i < df.length) (hi' : i < df'.length),
        (df'.get ⟨i, hi'⟩).work_order = (df.get ⟨i, hi⟩).work_order ∧
        ((df.get ⟨i, hi⟩).work_order = wo →
          df'.get ⟨i, hi'⟩ =
            { df.get ⟨i, hi⟩ with
                appointment_date := d, appointment_time := t, status := s }) ∧
        ((df.get ⟨i, hi⟩).work_order ≠ wo → df'.get ⟨i, hi'⟩ = df.get ⟨i, hi⟩) := by
  obtain ⟨r0, hr0, he0⟩ := h
  have hany : df.any (fun r => r.work_order == wo) = true := by
    rw [List.any_eq_true]
    exact ⟨r0, hr0, by simpa using he0⟩
  refine ⟨df.map (fun r => if r.work_order == wo then
      { r with appointment_date := d, appointment_time := t, status := s } else r),
    ?_, by simp, ?_⟩
  · unfold update_appointment
    rw [if_pos hany]
  · intro i hi hi'
    simp only [List.get_eq_getElem, List.getElem_map]
    by_cases hw : df[i].work_order = wo
    · have hbeq : (df[i].work_order == wo) = true := beq_iff_eq.mpr hw
      rw [if_pos hbeq]
      exact ⟨rfl, fun _ => rfl, fun hne => absurd hw hne⟩
    · have hbeq : ¬ (df[i].work_order == wo) = true := by
        simp [beq_eq_false_iff_ne.mpr hw]
      rw [if_neg hbeq]
      exact ⟨rfl, fun hcon => absurd hcon hw, fun _ => rfl⟩

/-- Witness for `update_appointment_frame` at a concrete table. -/
theorem update_appointment_frame_witness :
    ∃ df', update_appointment [rowA, rowB] "WO-001" "2026-02-20" "3:00 PM" "Rescheduled"
        = some df' ∧
      df'.length = ([rowA, rowB] : List Row).length ∧
      ∀ (i : Nat) (hi : i < ([rowA, rowB] : List Row).length) (hi' : i < df'.length),
        (df'.get ⟨i, hi'⟩).work_order = (([rowA, rowB] : List Row).get ⟨i, hi⟩).work_order ∧
        ((([rowA, rowB] : List Row).get ⟨i, hi⟩).work_order = "WO-001" →
          df'.get ⟨i, hi'⟩ =
            { ([rowA, rowB] : List Row).get ⟨i, hi⟩ with
                appointment_date := "2026-02-20", appointment_time := "3:00 PM",
                status := "Rescheduled" }) ∧
        ((([rowA, rowB] : List Row).get ⟨i, hi⟩).work_order ≠ "WO-001" →
          df'.get ⟨i, hi'⟩ = ([rowA, rowB] : List Row).get ⟨i, hi⟩) :=
  update_appointment_frame [rowA, rowB] "WO-001" "2026-02-20" "3:00 PM" "Rescheduled"
    ⟨rowA, List.mem_cons_self _ _, rfl⟩

theorem reMatchAt_eq_ciPrefix :
    ∀ (pat : List Char), '.' ∉ pat → ∀ s, reMatchAt pat s = ciPrefix pat s := by
  intro pat
  induction pat with
  | nil =>
    intro _ s
    cases s <;> rfl
  | cons p ps ih =>
    intro hp s
    simp only [List.mem_cons, not_or] at hp
    cases s with
    | nil => rfl
    | cons c cs =>
      have hpd : (p == '.') = false := beq_eq_false_iff_ne.mpr (fun he => hp.1 he.symm)
      simp [reMatchAt, ciPrefix, hpd, ih hp.2 cs]

theorem reSearch_eq_containsCI (pat : List Char) (hp : '.' ∉ pat) :
    ∀ s, reSearch pat s = containsCI pat s := by
  intro s
  induction s with
  | nil =>
    cases pat with
    | nil => rfl
    | cons p ps => rfl
  | cons c cs ih =>
    simp only [reSearch, containsCI, reMatchAt_eq_ciPrefix pat hp, ih]

/-- Counterexample to claim C9 as stated: `str.contains(search, case=False,
na=False)` keeps its pandas default `regex=True`, so the search string is a
regular expression; the search `a.c` matches the work order `abc`, which
does not contain `a.c` as a substring, and the dashboard filter keeps a
row the spec's substring filter rejects. -/
theorem dashboard_filter_counterexample :
    technician_view_filter [rowAbc] ["Pending"] ["T1"] "a.c" = [rowAbc] ∧
    spec_dashboard_filter [rowAbc] ["Pending"] ["T1"] "a.c" = [] ∧
    technician_view_filter [rowAbc] ["Pending"] ["T1"] "a.c"
      ≠ spec_dashboard_filter [rowAbc] ["Pending"] ["T1"] "a.c" := by decide

/-- Claim C9 (amended): the dashboard filter treats the search string as a
case-insensitive regular expression; for search strings containing no
regex metacharacter this coincides with case-insensitive substring
containment, and the filter then returns exactly the rows whose status and
technician are selected and which match the (possibly absent) search, in
store order; and whenever the selected statuses exclude every row's
status, the result is empty. -/
theorem dashboard_filter_correct (df : List Row) (statuses techs : List String)
    (search : String) :
    ((∀ c ∈ search.toList, c ∉ regexMeta) →
      technician_view_filter df statuses techs search
        = spec_dashboard_filter df statuses techs search) ∧
    ((∀ r ∈ df, statuses.contains r.status = false) →
      technician_view_filter df statuses techs search = []) := by
  constructor
  · intro hmeta
    have hdot : '.' ∉ search.toList := fun hc => hmeta '.' hc (by decide)
    simp only [technician_view_filter, spec_dashboard_filter]
    cases he : search.isEmpty with
    | true =>
      simp only [if_pos rfl]
      apply List.filter_congr
      intro r _
      simp
    | false =>
      rw [if_neg (by simp [he])]
      rw [List.filter_filter]
      apply List.filter_congr
      intro r _
      simp only [rowMatchesSearch, reSearch_eq_containsCI search.toList hdot, he,
        Bool.false_or]
      exact Bool.and_comm _ _
  · intro hexc
    have hbase : df.filter
        (fun r => statuses.contains r.status && techs.contains r.tech_id) = [] :=
      filter_eq_nil_of_false _ df (fun r hr => by rw [hexc r hr]; rfl)
    simp only [technician_view_filter, hbase]
    cases search.isEmpty <;> simp

/-- Witness for `dashboard_filter_correct`: a literal search coincides with
the substring semantics, and statuses excluding every row give the empty
result. -/
theorem dashboard_filter_correct_witness :
    technician_view_filter [rowA, rowB] ["Pending"] ["T1", "T2"] "ali"
        = spec_dashboard_filter [rowA, rowB] ["Pending"] ["T1", "T2"] "ali" ∧
    technician_view_filter [rowA, rowB] ["Completed"] ["T1", "T2"] "" = [] :=
  ⟨(dashboard_filter_correct [rowA, rowB] ["Pending"] ["T1", "T2"] "ali").1 (by decide),
    (dashboard_filter_correct [rowA, rowB] ["Completed"] ["T1", "T2"] "").2 (by decide)⟩
